import Mathlib

/-
Verification of the Mython language core: the indentation-sensitive lexer
(src/mython/lexer.cpp, lexer.h) and the object/runtime model
(src/mython/runtime.cpp).  Each C++ function used by the claims is embedded
as an executable Lean definition; theorems about those definitions settle
the claims.
-/

set_option maxHeartbeats 1000000

namespace parse

/-- Token: the closed tagged union of lexeme variants from lexer.h
(std::variant TokenBase).  Valued variants carry their payload; the C++
`int` number payload is modelled as `Int` (the claims never exercise
overflow, which lexer.cpp leaves to `stoi`). -/
inductive Token where
  | number (value : Int)
  | id (value : String)
  | char (value : Char)
  | str (value : String)
  | kwClass
  | kwReturn
  | kwIf
  | kwElse
  | kwDef
  | newline
  | kwPrint
  | indent
  | dedent
  | kwAnd
  | kwOr
  | kwNot
  | eq
  | notEq
  | lessOrEq
  | greaterOrEq
  | kwNone
  | kwTrue
  | kwFalse
  | eof
deriving DecidableEq

/-- Token.isNewline models `token.Is<token_type::Newline>()`. -/
def Token.isNewline : Token → Bool
  | .newline => true
  | _ => false

/-- Lexer state visible to the parsing helpers: the token vector
`vct_tokens_` built so far and the indentation counter `dent_`.
`dent_` is a C++ `int` but is provably never negative (the dedent loop
runs at most `dent_` times), so `Nat` is faithful. -/
structure LexState where
  toks : List Token
  dent : Nat
deriving DecidableEq

/-- Append one token to the state's token vector (emplace_back). -/
def pushTok (st : LexState) (t : Token) : LexState :=
  ⟨st.toks ++ [t], st.dent⟩

/-- Lexer::TrimSpaces: consume a run of plain space characters. -/
def dropSpaces : List Char → List Char
  | [] => []
  | c :: rest => if c = ' ' then dropSpaces rest else c :: rest

/-- The number of leading spaces consumed by the counting loop in
Lexer::ParseDent. -/
def countSpaces : List Char → Nat
  | [] => 0
  | c :: rest => if c = ' ' then countSpaces rest + 1 else 0

/-- The Indent-emitting loop of Lexer::ParseDent
(`while (spaces_processed > 0) { spaces_processed -= DENT_SPACES; emit
Indent; ++dent_; }`), started with `spaces_processed = s > 0` and
indentation counter `d`.  One token is emitted and the counter bumped per
iteration; the counter decreases by DENT_SPACES = 2 per iteration and the
loop stops at or below zero. -/
def indentRun : Nat → Nat → List Token × Nat
  | 0, d => ([], d)
  | 1, d => ([Token.indent], d + 1)
  | s + 2, d =>
    let (ts, d2) := indentRun s (d + 1)
    (Token.indent :: ts, d2)

/-- The Dedent-emitting loop of Lexer::ParseDent, symmetric to
`indentRun`. -/
def dedentRun : Nat → Nat → List Token × Nat
  | 0, d => ([], d)
  | 1, d => ([Token.dedent], d - 1)
  | s + 2, d =>
    let (ts, d2) := dedentRun s (d - 1)
    (Token.dedent :: ts, d2)

/-- The comparison-and-emission part of Lexer::ParseDent: given the
current indentation counter `d` and the counted leading spaces of a
non-blank line, emit Indent or Dedent tokens and return the new counter
(DENT_SPACES = 2). -/
def parseDentCore (d : Nat) (spaces : Nat) : List Token × Nat :=
  if d * 2 < spaces then indentRun (spaces - d * 2) d
  else if d * 2 > spaces then dedentRun (d * 2 - spaces) d
  else ([], d)

/-- Lexer::ParseDent.  At end of input it returns at once (CheckEof).
Otherwise it consumes the line's leading spaces; if the next character is
a line terminator the line is fully blank and no adjustment happens (the
'\n' is put back for ParseNewLine); otherwise the space count is compared
with the current indentation.  The C++ eof branch (spaces running into end
of input) performs the adjustment as well: its `putback` is a silent no-op
because the stream is already failed, and the last-read character is a
space, not '\n'. -/
def parseDent (input : List Char) (st : LexState) : List Char × LexState :=
  match input with
  | [] => ([], st)
  | _ :: _ =>
    let r := dropSpaces input
    if r.head? = some '\x0a' then (r, st)
    else
      let (ts, d) := parseDentCore st.dent (countSpaces input)
      (r, ⟨st.toks ++ ts, d⟩)

/-- Lexer::ParseNewLine: if the next character is '\n', consume it, emit a
Newline token unless the vector is empty or already ends in a Newline,
then compute the following line's indentation. -/
def parseNewLine (input : List Char) (st : LexState) : List Char × LexState :=
  match input with
  | [] => (input, st)
  | c :: rest =>
    if c = '\x0a' then
      parseDent rest
        (match st.toks.getLast? with
         | some t => if t.isNewline then st else pushTok st Token.newline
         | none => st)
    else (input, st)

/-- Escape resolution inside Lexer::ParseString's backslash case. -/
def escChar : Char → Option Char
  | 'n' => some '\x0a'
  | 't' => some '\x09'
  | 'r' => some '\x0d'
  | '\x22' => some '\x22'
  | '\x27' => some '\x27'
  | '\x5c' => some '\x5c'
  | _ => none

/-- The scanning loop of Lexer::ParseString after the opening quote `q`
has been consumed: build the literal's value until the matching quote;
a backslash escape is resolved via `escChar` (unknown escape or end of
input mid-escape is a LexerError); a bare '\n' or '\r' inside the literal
is a LexerError; running out of input before the closing quote is a
LexerError (unterminated). -/
def scanStringLit (q : Char) : List Char → Except String (String × List Char)
  | [] => .error "ParseString failed: unterminated string literal"
  | c :: rest =>
    if c = q then .ok ("", rest)
    else if c = '\x5c' then
      match rest with
      | [] => .error "ParseString failed: escape at end of input"
      | e :: rest2 =>
        match escChar e with
        | some ec =>
          match scanStringLit q rest2 with
          | .ok (s, r) => .ok (String.singleton ec ++ s, r)
          | .error msg => .error msg
        | none => .error "ParseString failed: invalid escape sequence"
    else if c = '\x0a' ∨ c = '\x0d' then
      .error "ParseString failed: line terminator inside string literal"
    else
      match scanStringLit q rest with
      | .ok (s, r) => .ok (String.singleton c ++ s, r)
      | .error msg => .error msg

/-- Lexer::ParseString: when the next character is a quote, scan a string
literal and emit a String token; otherwise leave the input untouched
(the probed character is put back). -/
def parseString (input : List Char) (st : LexState) :
    Except String (List Char × LexState) :=
  match input with
  | [] => .ok ([], st)
  | c :: rest =>
    if c = '\x27' ∨ c = '\x22' then
      match scanStringLit c rest with
      | .ok (s, r) => .ok (r, pushTok st (Token.str s))
      | .error msg => .error msg
    else .ok (input, st)

def isIdentStart (c : Char) : Bool := c.isAlpha || c = '_'

def isIdentChar (c : Char) : Bool := c.isAlphanum || c = '_'

/-- The maximal identifier/keyword run consumed by Lexer::ParseKeywords
(alphanumeric or underscore; the first non-matching character is put
back). -/
def takeIdent : List Char → String × List Char
  | [] => ("", [])
  | c :: rest =>
    if isIdentChar c then
      let (s, r) := takeIdent rest
      (String.singleton c ++ s, r)
    else ("", c :: rest)

/-- The keyword classification of Lexer::ParseKeywords: the fixed keyword
set, everything else an identifier. -/
def classifyKeyword (s : String) : Token :=
  if s = "class" then .kwClass
  else if s = "return" then .kwReturn
  else if s = "if" then .kwIf
  else if s = "else" then .kwElse
  else if s = "def" then .kwDef
  else if s = "print" then .kwPrint
  else if s = "and" then .kwAnd
  else if s = "or" then .kwOr
  else if s = "not" then .kwNot
  else if s = "None" then .kwNone
  else if s = "True" then .kwTrue
  else if s = "False" then .kwFalse
  else .id s

/-- Lexer::ParseKeywords: when the next character is alphabetic or '_',
consume the maximal identifier run and emit the classified token. -/
def parseKeywords (input : List Char) (st : LexState) : List Char × LexState :=
  match input with
  | [] => (input, st)
  | c :: _ =>
    if isIdentStart c then
      let (s, rest) := takeIdent input
      (rest, pushTok st (classifyKeyword s))
    else (input, st)

/-- C-locale ispunct over ASCII: printable, not alphanumeric, not space. -/
def isPunct (c : Char) : Bool :=
  ('!' ≤ c && c ≤ '/') || (':' ≤ c && c ≤ '@') ||
  ('[' ≤ c && c ≤ '\x60') || ('\x7b' ≤ c && c ≤ '~')

/-- The effect of Lexer::ParseComments on the stream: `getline` consumes
up to and including the '\n', and the '\n' (when found before end of
input) is put back; net effect, everything before the '\n' is dropped. -/
def dropUntilNl : List Char → List Char
  | [] => []
  | c :: rest => if c = '\x0a' then c :: rest else dropUntilNl rest

/-- Lexer::ParseComments: a '#' consumes the rest of the line. -/
def parseComments (input : List Char) : List Char :=
  match input with
  | '#' :: _ => dropUntilNl input
  | _ => input

/-- Lexer::ParseChars: punctuation handling — '#' starts a comment;
"==", "!=", ">=", "<=" are two-character operators; any other punctuation
character becomes a Char token.  A non-punctuation character is put
back. -/
def parseChars (input : List Char) (st : LexState) : List Char × LexState :=
  match input with
  | [] => (input, st)
  | c :: rest =>
    if isPunct c then
      if c = '#' then (parseComments input, st)
      else
        match c, rest with
        | '=', '=' :: r2 => (r2, pushTok st Token.eq)
        | '!', '=' :: r2 => (r2, pushTok st Token.notEq)
        | '>', '=' :: r2 => (r2, pushTok st Token.greaterOrEq)
        | '<', '=' :: r2 => (r2, pushTok st Token.lessOrEq)
        | _, _ => (rest, pushTok st (Token.char c))
    else (input, st)

/-- The maximal digit run consumed by Lexer::ParseNumbers. -/
def takeDigits : List Char → List Char × List Char
  | [] => ([], [])
  | c :: rest =>
    if c.isDigit then
      let (ds, r) := takeDigits rest
      (c :: ds, r)
    else ([], c :: rest)

/-- Decimal value of a digit run (`stoi` on the scanned digits; modelled
without the `int` overflow error, which no claim exercises). -/
def decVal (ds : List Char) : Int :=
  ds.foldl (fun a c => a * 10 + ((c.toNat : Int) - 48)) 0

/-- Lexer::ParseNumbers: when the next character is a digit, consume the
maximal digit run and emit a Number token. -/
def parseNumbers (input : List Char) (st : LexState) : List Char × LexState :=
  match input with
  | [] => (input, st)
  | c :: _ =>
    if c.isDigit then
      let (ds, rest) := takeDigits input
      (rest, pushTok st (Token.number (decVal ds)))
    else (input, st)

/-- One iteration of the `while (token_input_)` loop in
Lexer::ParseTokens: ParseString, ParseKeywords, ParseChars, ParseNumbers,
TrimSpaces, ParseNewLine in this order.  Only ParseString can throw a
LexerError on the inputs the loop reaches. -/
def lexIter (input : List Char) (st : LexState) :
    Except String (List Char × LexState) :=
  match parseString input st with
  | .error msg => .error msg
  | .ok p1 =>
    let p2 := parseKeywords p1.1 p1.2
    let p3 := parseChars p2.1 p2.2
    let p4 := parseNumbers p3.1 p3.2
    .ok (parseNewLine (dropSpaces p4.1) p4.2)

/-- Outcome of running the main tokenization loop. -/
inductive LexOutcome where
  | ok (st : LexState)
  | err (msg : String)
  | hang

/-- The main loop of Lexer::ParseTokens.  The C++ loop runs while the
stream has not failed; a read past the end fails the stream, so the loop
stops once the input is exhausted (an iteration started at end of input
emits nothing).  An iteration that consumes no characters (possible, e.g.
on a tab character, which no sub-parser accepts) never makes progress and
the C++ loop runs forever; that is reported as `hang`.  The fuel argument
is a bound on iterations: every productive iteration consumes at least
one character, so `input.length + 1` fuel is never exhausted. -/
def mainLoopF : Nat → List Char → LexState → LexOutcome
  | 0, _, _ => .hang
  | _ + 1, [], st => .ok st
  | fuel + 1, c :: rest, st =>
    match lexIter (c :: rest) st with
    | .error msg => .err msg
    | .ok (input2, st2) =>
      if input2.length < (c :: rest).length then mainLoopF fuel input2 st2
      else .hang

/-- The Dedent run appended after the main loop
(`while (dent_ > 0) { emit Dedent; --dent_; }`). -/
def dedentsFor : Nat → List Token
  | 0 => []
  | n + 1 => Token.dedent :: dedentsFor n

/-- The epilogue of Lexer::ParseTokens: a final Newline unless the vector
is empty or already ends in one, a Dedent per remaining indentation unit,
then Eof. -/
def finalize (st : LexState) : List Token :=
  (match st.toks.getLast? with
   | some t => if t.isNewline then st.toks else st.toks ++ [Token.newline]
   | none => st.toks)
  ++ dedentsFor st.dent ++ [Token.eof]

/-- Result of Lexer's eager tokenization (the constructor's ParseTokens):
the materialized token vector, a LexerError, or non-termination. -/
inductive TokResult where
  | toks (ts : List Token)
  | err (msg : String)
  | hang
deriving DecidableEq

/-- Lexer::ParseTokens as run by the Lexer constructor: leading spaces are
trimmed, the main loop runs to exhaustion, then the epilogue appends the
final Newline/Dedents/Eof. -/
def tokenize (input : List Char) : TokResult :=
  match mainLoopF (input.length + 1) (dropSpaces input) ⟨[], 0⟩ with
  | .ok st => .toks (finalize st)
  | .err msg => .err msg
  | .hang => .hang

end parse

namespace runtime

/-- Modelled from the spec: `Context` is the opaque sink passed through
`Execute(closure, context)` for the language's output operations; it lives
outside src/.  It is modelled as a counter of effects so that theorems can
observe how many times a user-defined protocol method body ran. -/
abbrev Ctx := Nat

mutual

/-- ObjectHolder (runtime.h/runtime.cpp): a nullable handle to a runtime
value; the empty holder represents the language's None.  Shared ownership
and the non-owning `Share` mode affect only lifetime, not values, so both
construction modes denote `obj`. -/
inductive ObjectHolder where
  | empty : ObjectHolder
  | obj : Obj → ObjectHolder

/-- The runtime value kinds wrapped by ObjectHolder: Bool, Number (C++
`int`, modelled as `Int`), String, Class and ClassInstance. -/
inductive Obj where
  | vbool : Bool → Obj
  | vnum : Int → Obj
  | vstr : String → Obj
  | vcls : Class → Obj
  | vinst : ClassInstance → Obj

/-- Modelled from the spec: the opaque executable method body (the
`Execute(closure, context) → ObjectHolder` contract owned by the AST,
which is outside src/).  The constructors cover what a body can do through
that contract: return a value, read a binding of the call's closure,
perform an output effect on the context, and mutate a field of `self`. -/
inductive Exec where
  | ret : ObjectHolder → Exec
  | retParam : String → Exec
  | tick : Exec → Exec
  | setSelfField : String → ObjectHolder → Exec → Exec

/-- Method (runtime.h): name, formal parameter names, executable body. -/
inductive Method where
  | mk : String → List String → Exec → Method

/-- The `std::vector<Method>` of a Class. -/
inductive MethodList where
  | nil : MethodList
  | cons : Method → MethodList → MethodList

/-- The optional parent pointer of a Class (non-owning). -/
inductive OptClass where
  | none : OptClass
  | some : Class → OptClass

/-- Class (runtime.cpp): name, own declared methods, optional parent.  The
flattened dispatch table `v_table_` is derived by `Class.v_table` below,
exactly as the constructor builds it. -/
inductive Class where
  | mk : String → MethodList → OptClass → Class

/-- The name → ObjectHolder field map of a ClassInstance. -/
inductive FieldList where
  | nil : FieldList
  | cons : String → ObjectHolder → FieldList → FieldList

/-- ClassInstance (runtime.cpp): a reference to its Class and the owned
field map. -/
inductive ClassInstance where
  | mk : Class → FieldList → ClassInstance

end

def Method.name : Method → String
  | .mk n _ _ => n

def Method.formal_params : Method → List String
  | .mk _ ps _ => ps

def Method.body : Method → Exec
  | .mk _ _ b => b

def Class.name : Class → String
  | .mk n _ _ => n

def Class.methods : Class → MethodList
  | .mk _ ms _ => ms

def Class.parent : Class → OptClass
  | .mk _ _ p => p

def ClassInstance.cls : ClassInstance → Class
  | .mk c _ => c

def ClassInstance.fields : ClassInstance → FieldList
  | .mk _ f => f

/-- The assignment `v_table_[name] = &method` into the unordered_map, replacing
an existing entry of the same key or adding a new one. -/
def tableInsert : List (String × Method) → String → Method → List (String × Method)
  | [], k, m => [(k, m)]
  | (k2, m2) :: rest, k, m =>
    if k2 = k then (k, m) :: rest else (k2, m2) :: tableInsert rest k m

/-- The `for (method : …) v_table_[method.name] = &method;` loops of the
Class constructor, folded over a method list in declaration order. -/
def buildTable (init : List (String × Method)) : MethodList → List (String × Method)
  | .nil => init
  | .cons m rest => buildTable (tableInsert init m.name m) rest

/-- Lookup in the finished table (`v_table_.count` / `v_table_.at`). -/
def lookupTable : List (String × Method) → String → Option Method
  | [], _ => none
  | (k, m) :: rest, n => if k = n then some m else lookupTable rest n

/-- The flattened dispatch table built by the Class constructor: when a
parent is present the table is first filled from `parent_->methods_` (the
parent's OWN declared method list, not the parent's flattened table), then
overwritten by the class's own methods. -/
def Class.v_table (c : Class) : List (String × Method) :=
  match c with
  | .mk _ ms p =>
    let init := match p with
      | .none => []
      | .some par => buildTable [] par.methods
    buildTable init ms

/-- Class::GetMethod: table lookup, "not found" as `none`. -/
def Class.GetMethod (c : Class) (n : String) : Option Method :=
  lookupTable c.v_table n

/-- ClassInstance::HasMethod: true iff the dispatch table has a method of
that name whose formal-parameter count equals the queried count
exactly. -/
def ClassInstance.HasMethod (i : ClassInstance) (method : String)
    (argument_count : Nat) : Bool :=
  match i.cls.GetMethod method with
  | some m => argument_count == m.formal_params.length
  | none => false

/-- The name → ObjectHolder closure handed to a method body. -/
abbrev Closure := List (String × ObjectHolder)

/-- The assignment `closure[name] = value` on the unordered_map. -/
def closureInsert : Closure → String → ObjectHolder → Closure
  | [], k, v => [(k, v)]
  | (k2, v2) :: rest, k, v =>
    if k2 = k then (k, v) :: rest else (k2, v2) :: closureInsert rest k v

/-- Reading a closure binding from inside a body; a missing name
default-constructs an empty holder, as `unordered_map::operator[]`
would. -/
def closureLookup : Closure → String → ObjectHolder
  | [], _ => ObjectHolder.empty
  | (k, v) :: rest, n => if k = n then v else closureLookup rest n

/-- The assignment `fields_[name] = value` during body execution. -/
def fieldsSet : FieldList → String → ObjectHolder → FieldList
  | .nil, k, v => .cons k v .nil
  | .cons k2 v2 rest, k, v =>
    if k2 = k then .cons k v rest else .cons k2 v2 (fieldsSet rest k v)

/-- Modelled from the spec: running an executable body under the
`Execute(closure, context)` contract.  The body produces a result holder
and may have updated `self`'s field map (in C++ an in-place mutation
through the shared `self` holder) and the context. -/
def execBody : Exec → Closure → FieldList → Ctx → ObjectHolder × FieldList × Ctx
  | .ret v, _, f, c => (v, f, c)
  | .retParam n, cl, f, c => (closureLookup cl n, f, c)
  | .tick k, cl, f, c => execBody k cl f (c + 1)
  | .setSelfField n v k, cl, f, c => execBody k cl (fieldsSet f n v) c

/-- Binding the formal parameters positionally to the actual arguments
(the indexed for-loop in ClassInstance::Call; the two lists have equal
length whenever the loop runs, by HasMethod). -/
def bindParams : Closure → List String → List ObjectHolder → Closure
  | cl, [], _ => cl
  | cl, _, [] => cl
  | cl, p :: ps, a :: rest => bindParams (closureInsert cl p a) ps rest

/-- ClassInstance::Call: if HasMethod(name, actual_args.size()), build the
closure with `self` bound to a non-owning holder of this instance and the
formals bound positionally, and execute the body; otherwise throw the
"undefined method" runtime_error.  The success value carries the field map
the body left behind (the C++ in-place mutation of the instance). -/
def ClassInstance.Call (i : ClassInstance) (method : String)
    (actual_args : List ObjectHolder) (ctx : Ctx) :
    Except String (ObjectHolder × FieldList × Ctx) :=
  if i.HasMethod method actual_args.length then
    match i.cls.GetMethod method with
    | some m =>
      let cl := closureInsert [] "self" (ObjectHolder.obj (Obj.vinst i))
      let cl := bindParams cl m.formal_params actual_args
      .ok (execBody m.body cl i.fields ctx)
    | none => .error "GetMethod returned null"
  else
    .error ("Call for an undefined method \x22" ++ method ++ "\x22")

/-- The in-place effect of ClassInstance::Call on the instance and the
context: on success the instance carries the fields the body left; the
exception is thrown before any closure is built or any body runs, so on
error the instance and the context are exactly as before the call. -/
def callOnInstance (i : ClassInstance) (method : String)
    (args : List ObjectHolder) (ctx : Ctx) :
    Except String ObjectHolder × ClassInstance × Ctx :=
  match i.Call method args ctx with
  | .ok (r, f, c) => (Except.ok r, ClassInstance.mk i.cls f, c)
  | .error e => (Except.error e, i, ctx)

/-- runtime::IsTrue, compiling the cascade: an empty holder is false; then
a true Bool, a nonzero Number or a nonempty String yields true; everything
else (false Bool, zero, empty string, Class, ClassInstance) falls through
to false. -/
def IsTrue : ObjectHolder → Bool
  | .empty => false
  | .obj (Obj.vbool b) => b
  | .obj (Obj.vnum n) => decide (n ≠ 0)
  | .obj (Obj.vstr s) => !s.isEmpty
  | .obj (Obj.vcls _) => false
  | .obj (Obj.vinst _) => false

/-- The read `obj.TryAs<Bool>()->GetValue()` on the holder a protocol method
returned.  On a non-Bool result the C++ dereferences a null pointer
(undefined behavior); the model makes that an error, which no claim
exercises. -/
def tryAsBool : ObjectHolder → Except String Bool
  | .obj (Obj.vbool b) => .ok b
  | _ => .error "TryAs Bool dereferenced null"

/-- The built-in same-kind comparisons at the tail of runtime::Equal:
Bool, Number, String pairs by ==, anything else throws. -/
def equalBuiltin (lhs rhs : ObjectHolder) (ctx : Ctx) :
    Except String (Bool × Ctx) :=
  match lhs, rhs with
  | .obj (Obj.vbool a), .obj (Obj.vbool b) => .ok (a == b, ctx)
  | .obj (Obj.vnum a), .obj (Obj.vnum b) => .ok (a == b, ctx)
  | .obj (Obj.vstr a), .obj (Obj.vstr b) => .ok (a == b, ctx)
  | _, _ => .error "Cannot compare objects for equality"

/-- runtime::Equal: both holders empty is true; else a class-instance left
operand with an `__eq__` of arity 1 is dispatched to it (interpreting the
Bool result); else the built-in same-kind comparison. -/
def Equal (lhs rhs : ObjectHolder) (ctx : Ctx) : Except String (Bool × Ctx) :=
  match lhs, rhs with
  | ObjectHolder.empty, ObjectHolder.empty => .ok (true, ctx)
  | lhs, rhs =>
    match lhs with
    | ObjectHolder.obj (Obj.vinst i) =>
      if i.HasMethod "__eq__" 1 then
        match i.Call "__eq__" [rhs] ctx with
        | .ok (o, _, c2) =>
          match tryAsBool o with
          | .ok b => .ok (b, c2)
          | .error e => .error e
        | .error e => .error e
      else equalBuiltin lhs rhs ctx
    | _ => equalBuiltin lhs rhs ctx

/-- The built-in same-kind comparisons at the tail of runtime::Less:
bool `<` (false < true), integer order, lexicographic string order;
anything else throws. -/
def lessBuiltin (lhs rhs : ObjectHolder) (ctx : Ctx) :
    Except String (Bool × Ctx) :=
  match lhs, rhs with
  | .obj (Obj.vbool a), .obj (Obj.vbool b) => .ok (!a && b, ctx)
  | .obj (Obj.vnum a), .obj (Obj.vnum b) => .ok (decide (a < b), ctx)
  | .obj (Obj.vstr a), .obj (Obj.vstr b) => .ok (decide (a < b), ctx)
  | _, _ => .error "Cannot compare objects for less"

/-- runtime::Less: a class-instance left operand with an `__lt__` of arity
1 is dispatched to it (interpreting the Bool result); else the built-in
same-kind comparison. -/
def Less (lhs rhs : ObjectHolder) (ctx : Ctx) : Except String (Bool × Ctx) :=
  match lhs with
  | ObjectHolder.obj (Obj.vinst i) =>
    if i.HasMethod "__lt__" 1 then
      match i.Call "__lt__" [rhs] ctx with
      | .ok (o, _, c2) =>
        match tryAsBool o with
        | .ok b => .ok (b, c2)
        | .error e => .error e
      | .error e => .error e
    else lessBuiltin lhs rhs ctx
  | _ => lessBuiltin lhs rhs ctx

/-- runtime::NotEqual = `!Equal(lhs, rhs, context)`, exceptions
propagating. -/
def NotEqual (lhs rhs : ObjectHolder) (ctx : Ctx) : Except String (Bool × Ctx) :=
  match Equal lhs rhs ctx with
  | .ok (b, c) => .ok (!b, c)
  | .error e => .error e

/-- runtime::Greater = `!(Less(lhs, rhs, context) || Equal(lhs, rhs,
context))` with C++ short-circuit `||` (Equal runs only when Less returned
false) and exception propagation. -/
def Greater (lhs rhs : ObjectHolder) (ctx : Ctx) : Except String (Bool × Ctx) :=
  match Less lhs rhs ctx with
  | .ok (true, c) => .ok (false, c)
  | .ok (false, c) =>
    match Equal lhs rhs c with
    | .ok (b, c2) => .ok (!b, c2)
    | .error e => .error e
  | .error e => .error e

/-- runtime::LessOrEqual = `Less(lhs, rhs, context) || Equal(lhs, rhs,
context)` with C++ short-circuit `||`. -/
def LessOrEqual (lhs rhs : ObjectHolder) (ctx : Ctx) : Except String (Bool × Ctx) :=
  match Less lhs rhs ctx with
  | .ok (true, c) => .ok (true, c)
  | .ok (false, c) => Equal lhs rhs c
  | .error e => .error e

/-- runtime::GreaterOrEqual = `!Less(lhs, rhs, context)`. -/
def GreaterOrEqual (lhs rhs : ObjectHolder) (ctx : Ctx) : Except String (Bool × Ctx) :=
  match Less lhs rhs ctx with
  | .ok (b, c) => .ok (!b, c)
  | .error e => .error e

end runtime

namespace runtime

/-- Last declaration with a given name in a method list: the entry that
survives the in-order `v_table_[name] = &method` assignments. -/
def lastDecl : MethodList → String → Option Method
  | .nil, _ => none
  | .cons m rest, n =>
    match lastDecl rest n with
    | some r => some r
    | none => if m.name = n then some m else none

theorem lookupTable_tableInsert (t : List (String × Method)) (k : String)
    (m : Method) (n : String) :
    lookupTable (tableInsert t k m) n =
      if k = n then some m else lookupTable t n := by
  induction t with
  | nil => simp [tableInsert, lookupTable]
  | cons hd tl ih =>
    obtain ⟨k2, m2⟩ := hd
    by_cases h : k2 = k
    · subst h
      simp only [tableInsert, if_pos rfl, lookupTable]
      split_ifs with h1 <;> simp [lookupTable, h1]
    · simp only [tableInsert, if_neg h, lookupTable]
      by_cases h2 : k2 = n
      · subst h2
        have : ¬ k = k2 := fun hk => h hk.symm
        simp [this]
      · simp [h2, ih]

theorem lookupTable_buildTable :
    ∀ (ms : MethodList) (init : List (String × Method)) (n : String),
      lookupTable (buildTable init ms) n =
        match lastDecl ms n with
        | some m => some m
        | none => lookupTable init n
  | .nil => by intro init n; simp [buildTable, lastDecl]
  | .cons m rest => by
    intro init n
    simp only [buildTable, lastDecl]
    rw [lookupTable_buildTable rest]
    cases lastDecl rest n with
    | some r => simp
    | none => rw [lookupTable_tableInsert]; split_ifs with h <;> simp [h]

end runtime

namespace runtime

/-- A method named "m" used by the inheritance fixtures. -/
def mA : Method := .mk "m" [] (Exec.ret ObjectHolder.empty)

/-- Fixture: class A declares method "m". -/
def clsA : Class := .mk "A" (.cons mA .nil) .none

/-- Fixture: class B inherits from A and declares nothing of its own. -/
def clsB : Class := .mk "B" .nil (.some clsA)

/-- Fixture: class C inherits from B (so "m" sits two levels up). -/
def clsGrand : Class := .mk "C" .nil (.some clsB)

/-- Fixture: an `__lt__` override of arity 1 whose body performs one
context effect and returns the boolean true. -/
def mLt : Method :=
  .mk "__lt__" ["other"] (Exec.tick (Exec.ret (ObjectHolder.obj (Obj.vbool true))))

/-- Fixture: a class declaring the `__lt__` override. -/
def clsLt : Class := .mk "L" (.cons mLt .nil) .none

/-- Fixture: an instance of the class with `__lt__`. -/
def instLt : ClassInstance := .mk clsLt .nil

/-- Fixture: an instance of a class with no comparison override. -/
def instPlain : ClassInstance := .mk clsA .nil

/-- C3 counterexample: the claim says a method declared only on an
ancestor stays reachable from a descendant because the child table copies
the parent's flattened table.  In the code the constructor copies
`parent_->methods_` (the parent's own declarations only): B's flattened
table does map "m" (inherited from A), yet C — whose parent is B — does
not inherit it, so `GetMethod` on C returns "not found". -/
theorem grandparent_method_counterexample :
    clsB.GetMethod "m" = some mA ∧ clsGrand.GetMethod "m" = none :=
  ⟨rfl, rfl⟩

/-- C3 (amended): a class's dispatch table is its direct parent's own
declared methods overwritten by the class's own methods — own methods win
over the parent's of the same name, and only methods declared directly on
the parent are inherited.  `lastDecl` is the last declaration of a name in
a method list, which is what the in-order map assignments keep. -/
theorem dispatch_one_level (nm : String) (ms : MethodList) (p : Class) (n : String) :
    (Class.mk nm ms (OptClass.some p)).GetMethod n =
      (match lastDecl ms n with
       | some m => some m
       | none => lastDecl p.methods n) ∧
    (Class.mk nm ms OptClass.none).GetMethod n = lastDecl ms n := by
  constructor
  · show lookupTable (Class.v_table (Class.mk nm ms (OptClass.some p))) n = _
    have h1 : Class.v_table (Class.mk nm ms (OptClass.some p)) =
        buildTable (buildTable [] p.methods) ms := rfl
    rw [h1, lookupTable_buildTable]
    cases lastDecl ms n with
    | some m => simp
    | none =>
      rw [lookupTable_buildTable]
      cases lastDecl p.methods n with
      | some m => simp
      | none => simp [lookupTable]
  · show lookupTable (Class.v_table (Class.mk nm ms OptClass.none)) n = _
    have h1 : Class.v_table (Class.mk nm ms OptClass.none) =
        buildTable [] ms := rfl
    rw [h1, lookupTable_buildTable]
    cases lastDecl ms n with
    | some m => simp
    | none => simp [lookupTable]

/-- C1 counterexample: `Equal(None, Number(0))` does not return false —
no branch of runtime::Equal matches a None/Number pair, so it throws the
"cannot compare" runtime_error. -/
theorem equal_none_number_counterexample :
    Equal ObjectHolder.empty (ObjectHolder.obj (Obj.vnum 0)) 0 =
      Except.error "Cannot compare objects for equality" ∧
    Equal ObjectHolder.empty (ObjectHolder.obj (Obj.vnum 0)) 0 ≠
      Except.ok (false, 0) := by
  refine ⟨rfl, ?_⟩
  intro h
  exact Except.noConfusion ((rfl :
    Equal ObjectHolder.empty (ObjectHolder.obj (Obj.vnum 0)) 0 =
      Except.error "Cannot compare objects for equality").symm.trans h)

/-- C1 (amended): Equal short-circuits to true when both operands are
empty holders; Equal on an empty holder against Number(0) raises the
"cannot compare" runtime error (no implicit coercion across kinds — a kind
mismatch is an error, not false). -/
theorem equal_none_behavior (ctx : Ctx) :
    Equal ObjectHolder.empty ObjectHolder.empty ctx = Except.ok (true, ctx) ∧
    Equal ObjectHolder.empty (ObjectHolder.obj (Obj.vnum 0)) ctx =
      Except.error "Cannot compare objects for equality" :=
  ⟨rfl, rfl⟩

/-- C4: HasMethod(m, k) is true iff the dispatch table maps m to a method
whose formal-parameter count is exactly k, and Call(m, args, ctx) raises
the "undefined method" runtime error exactly when
HasMethod(m, args.length) is false. -/
theorem hasmethod_call_error_iff (i : ClassInstance) (m : String)
    (args : List ObjectHolder) (ctx : Ctx) (k : Nat) :
    (i.HasMethod m k = true ↔
      ∃ mth, i.cls.GetMethod m = some mth ∧ mth.formal_params.length = k) ∧
    (i.Call m args ctx =
        Except.error ("Call for an undefined method \x22" ++ m ++ "\x22") ↔
      i.HasMethod m args.length = false) := by
  constructor
  · unfold ClassInstance.HasMethod
    cases h : i.cls.GetMethod m with
    | none => simp
    | some mth =>
      simp only [beq_iff_eq]
      constructor
      · intro hk; exact ⟨mth, rfl, hk.symm⟩
      · rintro ⟨mth2, hm, hlen⟩
        rw [Option.some_inj] at hm
        rw [hm, hlen]
  · cases hH : i.HasMethod m args.length with
    | false =>
      unfold ClassInstance.Call
      simp [hH]
    | true =>
      unfold ClassInstance.Call
      cases hg : i.cls.GetMethod m with
      | none => simp [ClassInstance.HasMethod, hg] at hH
      | some mth => simp [hH, hg]

/-- C5: with Less succeeding on (lhs, rhs) from ctx and Equal succeeding
from either start state, the derived operators satisfy NotEqual = ¬Equal,
GreaterOrEqual = ¬Less, Greater = ¬(Less ∨ Equal) and
LessOrEqual = Less ∨ Equal; the final contexts show the re-invocation:
every derived operator re-runs Less and (when Less yielded false) re-runs
Equal — its result context is the context those fresh invocations left —
rather than caching any earlier result. -/
theorem derived_comparisons_reinvoke (lhs rhs : ObjectHolder)
    (ctx c1 c2 c0 : Ctx) (bl be be0 : Bool)
    (hL : Less lhs rhs ctx = Except.ok (bl, c1))
    (hE : Equal lhs rhs c1 = Except.ok (be, c2))
    (hE0 : Equal lhs rhs ctx = Except.ok (be0, c0)) :
    NotEqual lhs rhs ctx = Except.ok (!be0, c0) ∧
    GreaterOrEqual lhs rhs ctx = Except.ok (!bl, c1) ∧
    Greater lhs rhs ctx = Except.ok (!(bl || be), if bl then c1 else c2) ∧
    LessOrEqual lhs rhs ctx = Except.ok ((bl || be), if bl then c1 else c2) := by
  refine ⟨?_, ?_, ?_, ?_⟩
  · simp [NotEqual, hE0]
  · simp [GreaterOrEqual, hL]
  · cases bl <;> simp [Greater, hL, hE]
  · cases bl <;> simp [LessOrEqual, hL, hE]

/-- C5 witness at Number(1), Number(2): Less yields true and Equal false,
with no context effects, so the four derived operators evaluate as
stated. -/
theorem derived_comparisons_witness :
    NotEqual (ObjectHolder.obj (Obj.vnum 1)) (ObjectHolder.obj (Obj.vnum 2)) 0 =
      Except.ok (true, 0) ∧
    GreaterOrEqual (ObjectHolder.obj (Obj.vnum 1)) (ObjectHolder.obj (Obj.vnum 2)) 0 =
      Except.ok (false, 0) ∧
    Greater (ObjectHolder.obj (Obj.vnum 1)) (ObjectHolder.obj (Obj.vnum 2)) 0 =
      Except.ok (false, 0) ∧
    LessOrEqual (ObjectHolder.obj (Obj.vnum 1)) (ObjectHolder.obj (Obj.vnum 2)) 0 =
      Except.ok (true, 0) :=
  derived_comparisons_reinvoke _ _ 0 0 0 0 true false false rfl rfl rfl

/-- C6: when the left operand is a class instance declaring `__lt__` of
arity 1, Less calls it with the right operand as the single argument and
returns the boolean the body produced (in the context the call left);
when the instance has no such override, Less on two instances throws the
"cannot compare" runtime error. -/
theorem less_instance_dispatch (i j : ClassInstance) (rhs : ObjectHolder)
    (f : FieldList) (ctx c2 : Ctx) (b : Bool) :
    (i.HasMethod "__lt__" 1 = true →
      i.Call "__lt__" [rhs] ctx =
        Except.ok (ObjectHolder.obj (Obj.vbool b), f, c2) →
      Less (ObjectHolder.obj (Obj.vinst i)) rhs ctx = Except.ok (b, c2)) ∧
    (i.HasMethod "__lt__" 1 = false →
      Less (ObjectHolder.obj (Obj.vinst i)) (ObjectHolder.obj (Obj.vinst j)) ctx =
        Except.error "Cannot compare objects for less") := by
  constructor
  · intro h hc
    simp [Less, h, hc, tryAsBool]
  · intro h
    simp [Less, h, lessBuiltin]

/-- C6 witness: the fixture override (one effect, returns true) is
dispatched to — Less yields its boolean and its context effect — and two
instances of the override-free class fail with the "cannot compare"
error. -/
theorem less_instance_dispatch_witness :
    Less (ObjectHolder.obj (Obj.vinst instLt)) (ObjectHolder.obj (Obj.vnum 5)) 0 =
      Except.ok (true, 1) ∧
    Less (ObjectHolder.obj (Obj.vinst instPlain))
        (ObjectHolder.obj (Obj.vinst instPlain)) 0 =
      Except.error "Cannot compare objects for less" :=
  ⟨(less_instance_dispatch instLt instPlain (ObjectHolder.obj (Obj.vnum 5))
      FieldList.nil 0 1 true).1 rfl rfl,
   (less_instance_dispatch instPlain instPlain (ObjectHolder.obj (Obj.vnum 5))
      FieldList.nil 0 0 true).2 rfl⟩

/-- C9: IsTrue is true exactly for a true boolean, a nonzero number or a
nonempty string; the empty holder, a false boolean, zero, the empty
string, and every class or class-instance value are false. -/
theorem istrue_characterization (v : ObjectHolder) :
    (IsTrue v = true ↔
      v = ObjectHolder.obj (Obj.vbool true) ∨
      (∃ n : Int, n ≠ 0 ∧ v = ObjectHolder.obj (Obj.vnum n)) ∨
      (∃ s : String, s ≠ "" ∧ v = ObjectHolder.obj (Obj.vstr s))) ∧
    IsTrue ObjectHolder.empty = false ∧
    IsTrue (ObjectHolder.obj (Obj.vbool false)) = false ∧
    IsTrue (ObjectHolder.obj (Obj.vnum 0)) = false ∧
    IsTrue (ObjectHolder.obj (Obj.vstr "")) = false ∧
    (∀ c : Class, IsTrue (ObjectHolder.obj (Obj.vcls c)) = false) ∧
    (∀ i : ClassInstance, IsTrue (ObjectHolder.obj (Obj.vinst i)) = false) := by
  refine ⟨?_, rfl, rfl, by simp [IsTrue], rfl, fun c => rfl, fun i => rfl⟩
  cases v with
  | empty => simp [IsTrue]
  | obj o =>
    cases o with
    | vbool b => cases b <;> simp [IsTrue]
    | vnum n => simp [IsTrue]
    | vstr s => simp [IsTrue, Bool.eq_false_iff, String.isEmpty_iff]
    | vcls c => simp [IsTrue]
    | vinst i => simp [IsTrue]

/-- C10: when HasMethod(m, args.length) is false, Call throws the
"undefined method" error before building any closure or executing any
body, so the instance's field map and the context are exactly as before
the call. -/
theorem call_error_atomic (i : ClassInstance) (m : String)
    (args : List ObjectHolder) (ctx : Ctx)
    (h : i.HasMethod m args.length = false) :
    callOnInstance i m args ctx =
      (Except.error ("Call for an undefined method \x22" ++ m ++ "\x22"), i, ctx) ∧
    (callOnInstance i m args ctx).2.1.fields = i.fields := by
  have hc : i.Call m args ctx =
      Except.error ("Call for an undefined method \x22" ++ m ++ "\x22") := by
    unfold ClassInstance.Call
    simp [h]
  constructor
  · simp [callOnInstance, hc]
  · simp [callOnInstance, hc]

/-- C10 witness: calling an absent method on the override-free fixture
instance errors and leaves the instance and context untouched. -/
theorem call_error_atomic_witness :
    callOnInstance instPlain "absent" [] 0 =
      (Except.error "Call for an undefined method \x22absent\x22", instPlain, 0) ∧
    (callOnInstance instPlain "absent" [] 0).2.1.fields = instPlain.fields :=
  call_error_atomic instPlain "absent" [] 0 rfl

end runtime

namespace parse

theorem countSpaces_replicate (n : Nat) (c : Char) (rest : List Char)
    (h : c ≠ ' ') :
    countSpaces (List.replicate n ' ' ++ c :: rest) = n := by
  induction n with
  | zero => simp [countSpaces, h]
  | succ k ih => simp [List.replicate_succ, countSpaces, ih]

theorem dropSpaces_replicate (n : Nat) (c : Char) (rest : List Char)
    (h : c ≠ ' ') :
    dropSpaces (List.replicate n ' ' ++ c :: rest) = c :: rest := by
  induction n with
  | zero => simp [dropSpaces, h]
  | succ k ih => simp [List.replicate_succ, dropSpaces, ih]

theorem indentRun_eq :
    ∀ (s d : Nat), indentRun s d =
      (List.replicate ((s + 1) / 2) Token.indent, d + (s + 1) / 2)
  | 0, d => by simp [indentRun]
  | 1, d => by simp [indentRun]
  | s + 2, d => by
    rw [indentRun, indentRun_eq s (d + 1)]
    have h3 : (s + 2 + 1) / 2 = (s + 1) / 2 + 1 := by omega
    rw [h3, List.replicate_succ]
    refine Prod.ext rfl ?_
    simp
    omega

theorem dedentRun_eq :
    ∀ (s d : Nat), dedentRun s d =
      (List.replicate ((s + 1) / 2) Token.dedent, d - (s + 1) / 2)
  | 0, d => by simp [dedentRun]
  | 1, d => by simp [dedentRun]
  | s + 2, d => by
    rw [dedentRun, dedentRun_eq s (d - 1)]
    have h3 : (s + 2 + 1) / 2 = (s + 1) / 2 + 1 := by omega
    rw [h3, List.replicate_succ]
    refine Prod.ext rfl ?_
    simp
    omega

/-- ParseDent on a non-blank line: consume the leading spaces and apply the
comparison/emission step to their count. -/
theorem parseDent_nonblank (a : Char) (l : List Char) (st : LexState)
    (c : Char) (rest : List Char)
    (hd : dropSpaces (a :: l) = c :: rest) (h2 : c ≠ '\x0a') :
    parseDent (a :: l) st =
      (c :: rest,
       ⟨st.toks ++ (parseDentCore st.dent (countSpaces (a :: l))).1,
        (parseDentCore st.dent (countSpaces (a :: l))).2⟩) := by
  simp only [parseDent, hd, List.head?_cons]
  rw [if_neg (by simp [h2])]

/-- C2 counterexample: a line indented by three spaces at level 0 produces
two Indent tokens (and raises the level to 2), not exactly one. -/
theorem parse_dent_three_spaces_counterexample :
    parseDent ("   x".toList) ⟨[], 0⟩ =
      (['x'], ⟨[Token.indent, Token.indent], 2⟩) ∧
    (parseDent ("   x".toList) ⟨[], 0⟩).2.toks.length ≠ 1 := by
  refine ⟨by decide, by decide⟩

/-- C2 (amended): for a non-blank line the lexer compares the counted
spaces against DENT_SPACES times the current level and converts the
difference to tokens by CEILING division by two (a partial unit still
emits a token): it emits ⌈(spaces − 2·level)/2⌉ Indents, raising the level
by that count, when the spaces exceed 2·level, ⌈(2·level − spaces)/2⌉
Dedents, lowering the level by that count, when below, and nothing at
equality; e.g. three spaces at level 0 produce two Indents. -/
theorem parse_dent_ceiling (st : LexState) (n : Nat) (c : Char)
    (rest : List Char) (d s : Nat) (h1 : c ≠ ' ') (h2 : c ≠ '\x0a') :
    parseDent (List.replicate n ' ' ++ c :: rest) st =
      (c :: rest,
       ⟨st.toks ++ (parseDentCore st.dent n).1, (parseDentCore st.dent n).2⟩) ∧
    parseDentCore d s =
      (if d * 2 < s then
        (List.replicate ((s - d * 2 + 1) / 2) Token.indent,
         d + (s - d * 2 + 1) / 2)
       else if d * 2 > s then
        (List.replicate ((d * 2 - s + 1) / 2) Token.dedent,
         d - (d * 2 - s + 1) / 2)
       else ([], d)) := by
  constructor
  · have hd : dropSpaces (List.replicate n ' ' ++ c :: rest) = c :: rest :=
      dropSpaces_replicate n c rest h1
    have hc : countSpaces (List.replicate n ' ' ++ c :: rest) = n :=
      countSpaces_replicate n c rest h1
    cases n with
    | zero =>
      have h0 := parseDent_nonblank c rest st c rest (by simpa using hd) h2
      simpa [countSpaces, h1] using h0
    | succ k =>
      rw [List.replicate_succ, List.cons_append]
      rw [parseDent_nonblank ' ' (List.replicate k ' ' ++ c :: rest) st c rest
        (by rw [← List.cons_append, ← List.replicate_succ]; exact hd) h2]
      rw [← List.cons_append, ← List.replicate_succ, hc]
  · unfold parseDentCore
    split_ifs with ha hb
    · exact indentRun_eq _ _
    · exact dedentRun_eq _ _
    · rfl

/-- C2 witness: three spaces before 'x' at level 0 — the non-blank branch
fires with space count 3 and the core emits ⌈3/2⌉ = 2 Indents. -/
theorem parse_dent_ceiling_witness :
    parseDent (List.replicate 3 ' ' ++ 'x' :: []) ⟨[], 0⟩ =
      ('x' :: [],
       ⟨[] ++ (parseDentCore 0 3).1, (parseDentCore 0 3).2⟩) ∧
    parseDentCore 0 3 = (List.replicate 2 Token.indent, 2) :=
  parse_dent_ceiling ⟨[], 0⟩ 3 'x' [] 0 3 (by decide) (by decide)

end parse

namespace parse

/-- C8 counterexample: the input "x\n  " contains a line consisting only
of spaces (the trailing, newline-less line "  "), yet the lexer emits an
Indent for it while reading its spaces into end of input, and a matching
Dedent in the epilogue — so a fully blank line is not always free of
Indent/Dedent tokens. -/
theorem blank_tail_counterexample :
    tokenize ("x\x0a  ".toList) =
      TokResult.toks [Token.id "x", Token.newline, Token.indent,
        Token.newline, Token.dedent, Token.eof] := by
  decide

/-- ParseDent on a blank line (leading spaces, then a line terminator):
nothing is emitted and the indentation level is untouched. -/
theorem parseDent_blank (a : Char) (l : List Char) (st : LexState)
    (rest : List Char)
    (hd : dropSpaces (a :: l) = '\x0a' :: rest) :
    parseDent (a :: l) st = ('\x0a' :: rest, st) := by
  simp only [parseDent, hd, List.head?_cons]
  simp

/-- C8 (amended): for a fully blank line terminated by a newline — leading
spaces followed immediately by a line terminator — ParseDent consumes the
spaces, defers the indentation decision and emits nothing (the level and
token vector are unchanged); and when the preceding token is already a
Newline (or nothing has been emitted yet), ParseNewLine emits no duplicate
Newline for the terminator and computes indentation directly from the
following line.  A trailing run of spaces at end of input (a blank line
without a terminator) is the exception: it does adjust indentation. -/
theorem blank_line_skip (n : Nat) (rest : List Char) (st : LexState) :
    parseDent (List.replicate n ' ' ++ '\x0a' :: rest) st =
      ('\x0a' :: rest, st) ∧
    ((st.toks = [] ∨ st.toks.getLast? = some Token.newline) →
      parseNewLine ('\x0a' :: rest) st = parseDent rest st) := by
  constructor
  · have hd : dropSpaces (List.replicate n ' ' ++ '\x0a' :: rest) =
        '\x0a' :: rest := dropSpaces_replicate n '\x0a' rest (by decide)
    cases n with
    | zero =>
      simpa using parseDent_blank '\x0a' rest st rest (by simp [dropSpaces])
    | succ k =>
      rw [List.replicate_succ, List.cons_append]
      exact parseDent_blank ' ' (List.replicate k ' ' ++ '\x0a' :: rest) st rest
        (by rw [← List.cons_append, ← List.replicate_succ]; exact hd)
  · intro h
    simp only [parseNewLine]
    rcases h with h | h
    · have hgl : st.toks.getLast? = none := by rw [h]; rfl
      rw [hgl]
      simp
    · rw [h]
      simp [Token.isNewline]

/-- C8 witness: a one-space blank line after an emitted Newline — the
blank line leaves the state untouched and the terminator of the preceding
line hands straight over to the indentation of what follows. -/
theorem blank_line_skip_witness :
    parseDent [' ', '\x0a', 'x'] ⟨[Token.newline], 0⟩ =
      (['\x0a', 'x'], ⟨[Token.newline], 0⟩) ∧
    parseNewLine ['\x0a', 'x'] ⟨[Token.newline], 0⟩ =
      parseDent ['x'] ⟨[Token.newline], 0⟩ :=
  ⟨(blank_line_skip 1 ['x'] ⟨[Token.newline], 0⟩).1,
   (blank_line_skip 1 ['x'] ⟨[Token.newline], 0⟩).2 (Or.inr rfl)⟩

end parse

namespace parse

/-- The token vector of `st2` extends that of `st` by a suffix containing
no Eof token.  Every parsing helper of the main loop preserves this. -/
def ExtNoEof (st st2 : LexState) : Prop :=
  ∃ d, st2.toks = st.toks ++ d ∧ Token.eof ∉ d

theorem extNoEof_refl (st : LexState) : ExtNoEof st st :=
  ⟨[], by simp⟩

theorem extNoEof_trans {a b c : LexState}
    (h1 : ExtNoEof a b) (h2 : ExtNoEof b c) : ExtNoEof a c := by
  obtain ⟨d1, hd1, n1⟩ := h1
  obtain ⟨d2, hd2, n2⟩ := h2
  exact ⟨d1 ++ d2, by rw [hd2, hd1, List.append_assoc], by simp [n1, n2]⟩

theorem extNoEof_push (st : LexState) (t : Token) (h : t ≠ Token.eof) :
    ExtNoEof st (pushTok st t) :=
  ⟨[t], rfl, by simp [List.mem_singleton]; exact Ne.symm h⟩

theorem classifyKeyword_ne_eof (s : String) : classifyKeyword s ≠ Token.eof := by
  unfold classifyKeyword
  split_ifs <;> exact fun h => Token.noConfusion h

theorem parseString_ext (input : List Char) (st : LexState)
    (r : List Char × LexState) (h : parseString input st = .ok r) :
    ExtNoEof st r.2 := by
  cases input with
  | nil =>
    simp only [parseString] at h
    injection h with h2
    rw [← h2]
    exact extNoEof_refl st
  | cons c rest =>
    simp only [parseString] at h
    split at h
    · cases hs : scanStringLit c rest with
      | ok p =>
        rw [hs] at h
        injection h with h2
        rw [← h2]
        exact extNoEof_push st _ (fun hh => Token.noConfusion hh)
      | error msg => rw [hs] at h; exact Except.noConfusion h
    · injection h with h2
      rw [← h2]
      exact extNoEof_refl st

theorem parseKeywords_ext (input : List Char) (st : LexState) :
    ExtNoEof st (parseKeywords input st).2 := by
  cases input with
  | nil => exact extNoEof_refl st
  | cons c rest =>
    simp only [parseKeywords]
    split
    · exact extNoEof_push st _ (classifyKeyword_ne_eof _)
    · exact extNoEof_refl st

theorem parseChars_ext (input : List Char) (st : LexState) :
    ExtNoEof st (parseChars input st).2 := by
  cases input with
  | nil => exact extNoEof_refl st
  | cons c rest =>
    simp only [parseChars]
    split
    · split
      · exact extNoEof_refl st
      · split <;> exact extNoEof_push st _ (fun hh => Token.noConfusion hh)
    · exact extNoEof_refl st

theorem parseNumbers_ext (input : List Char) (st : LexState) :
    ExtNoEof st (parseNumbers input st).2 := by
  cases input with
  | nil => exact extNoEof_refl st
  | cons c rest =>
    simp only [parseNumbers]
    split
    · exact extNoEof_push st _ (fun hh => Token.noConfusion hh)
    · exact extNoEof_refl st

theorem eof_notmem_indentRun (s d : Nat) :
    Token.eof ∉ (indentRun s d).1 := by
  rw [indentRun_eq]
  simp [List.mem_replicate]

theorem eof_notmem_dedentRun (s d : Nat) :
    Token.eof ∉ (dedentRun s d).1 := by
  rw [dedentRun_eq]
  simp [List.mem_replicate]

theorem eof_notmem_parseDentCore (d s : Nat) :
    Token.eof ∉ (parseDentCore d s).1 := by
  unfold parseDentCore
  split_ifs
  · exact eof_notmem_indentRun _ _
  · exact eof_notmem_dedentRun _ _
  · simp

theorem parseDent_ext (input : List Char) (st : LexState) :
    ExtNoEof st (parseDent input st).2 := by
  cases input with
  | nil => exact extNoEof_refl st
  | cons c rest =>
    simp only [parseDent]
    split
    · exact extNoEof_refl st
    · exact ⟨_, rfl, eof_notmem_parseDentCore _ _⟩

theorem parseNewLine_ext (input : List Char) (st : LexState) :
    ExtNoEof st (parseNewLine input st).2 := by
  cases input with
  | nil => exact extNoEof_refl st
  | cons c rest =>
    simp only [parseNewLine]
    by_cases hc : c = '\x0a'
    · rw [if_pos hc]
      cases hgl : st.toks.getLast? with
      | none => exact parseDent_ext rest st
      | some t =>
        show ExtNoEof st
          (parseDent rest (if t.isNewline then st else pushTok st Token.newline)).2
        by_cases ht : t.isNewline
        · rw [if_pos ht]; exact parseDent_ext rest st
        · rw [if_neg ht]
          exact extNoEof_trans
            (extNoEof_push st Token.newline (fun hh => Token.noConfusion hh))
            (parseDent_ext rest (pushTok st Token.newline))
    · rw [if_neg hc]
      exact extNoEof_refl st

theorem lexIter_ext (input : List Char) (st : LexState)
    (r : List Char × LexState) (h : lexIter input st = .ok r) :
    ExtNoEof st r.2 := by
  unfold lexIter at h
  cases hps : parseString input st with
  | error msg => rw [hps] at h; exact Except.noConfusion h
  | ok p1 =>
    rw [hps] at h
    simp only at h
    injection h with h2
    rw [← h2]
    exact extNoEof_trans (parseString_ext input st p1 hps)
      (extNoEof_trans (parseKeywords_ext p1.1 p1.2)
        (extNoEof_trans (parseChars_ext _ _)
          (extNoEof_trans (parseNumbers_ext _ _) (parseNewLine_ext _ _))))

theorem mainLoopF_ext (fuel : Nat) :
    ∀ (input : List Char) (st st2 : LexState),
      mainLoopF fuel input st = LexOutcome.ok st2 → ExtNoEof st st2 := by
  induction fuel with
  | zero => intro input st st2 h; exact LexOutcome.noConfusion h
  | succ fuel ih =>
    intro input st st2 h
    cases input with
    | nil =>
      simp only [mainLoopF] at h
      injection h with h2
      rw [← h2]
      exact extNoEof_refl st
    | cons a l =>
      simp only [mainLoopF] at h
      cases hit : lexIter (a :: l) st with
      | error msg => rw [hit] at h; exact LexOutcome.noConfusion h
      | ok p =>
        rw [hit] at h
        simp only at h
        split at h
        · exact extNoEof_trans (lexIter_ext _ _ _ hit) (ih _ _ _ h)
        · exact LexOutcome.noConfusion h

theorem eof_notmem_dedentsFor (n : Nat) : Token.eof ∉ dedentsFor n := by
  induction n with
  | zero => simp [dedentsFor]
  | succ k ih => simp [dedentsFor, ih]

end parse

namespace parse

/-- C7: whenever tokenization completes (the constructor neither throws a
LexerError nor loops forever), the materialized sequence is the main
loop's tokens, then — exactly as the epilogue runs — one Newline appended
iff the loop's last token exists and is not a Newline, then one Dedent per
remaining unit of positive indentation, then a single Eof; the main loop
itself never emits Eof, so the sequence contains exactly one Eof and no
token after it. -/
theorem lexer_final_tokens (input : List Char) (ts : List Token)
    (h : tokenize input = TokResult.toks ts) :
    ∃ st : LexState,
      mainLoopF (input.length + 1) (dropSpaces input) ⟨[], 0⟩ =
        LexOutcome.ok st ∧
      ts = (match st.toks.getLast? with
            | some t => if t.isNewline then st.toks else st.toks ++ [Token.newline]
            | none => st.toks) ++ dedentsFor st.dent ++ [Token.eof] ∧
      Token.eof ∉ st.toks ∧
      ts.getLast? = some Token.eof ∧
      ts.count Token.eof = 1 := by
  unfold tokenize at h
  cases hm : mainLoopF (input.length + 1) (dropSpaces input) ⟨[], 0⟩ with
  | err msg => rw [hm] at h; exact TokResult.noConfusion h
  | hang => rw [hm] at h; exact TokResult.noConfusion h
  | ok st =>
    rw [hm] at h
    injection h with h2
    subst h2
    have hno : Token.eof ∉ st.toks := by
      obtain ⟨d, hd, hnd⟩ := mainLoopF_ext _ _ _ _ hm
      rw [hd]
      simpa using hnd
    have hpre : Token.eof ∉ (match st.toks.getLast? with
        | some t => if t.isNewline then st.toks else st.toks ++ [Token.newline]
        | none => st.toks) := by
      cases hgl : st.toks.getLast? with
      | none => exact hno
      | some t =>
        show Token.eof ∉
          (if t.isNewline then st.toks else st.toks ++ [Token.newline])
        by_cases ht : t.isNewline
        · rw [if_pos ht]; exact hno
        · rw [if_neg ht]
          simp only [List.mem_append, List.mem_singleton]
          rintro (hh | hh)
          · exact hno hh
          · exact Token.noConfusion hh
    refine ⟨st, rfl, rfl, hno, ?_, ?_⟩
    · show (finalize st).getLast? = some Token.eof
      unfold finalize
      exact List.getLast?_concat _
    · show (finalize st).count Token.eof = 1
      unfold finalize
      rw [List.count_append, List.count_append]
      rw [List.count_eq_zero_of_not_mem hpre,
        List.count_eq_zero_of_not_mem (eof_notmem_dedentsFor st.dent)]
      rfl

/-- C7 witness at the input "x" (no trailing newline, no indentation):
tokenization succeeds with loop tokens [Id "x"], so the epilogue appends
the implicit Newline, no Dedents, and the single final Eof. -/
theorem lexer_final_tokens_witness :
    ∃ st : LexState,
      mainLoopF ((['x'] : List Char).length + 1) (dropSpaces ['x']) ⟨[], 0⟩ =
        LexOutcome.ok st ∧
      [Token.id "x", Token.newline, Token.eof] =
        (match st.toks.getLast? with
         | some t => if t.isNewline then st.toks else st.toks ++ [Token.newline]
         | none => st.toks) ++ dedentsFor st.dent ++ [Token.eof] ∧
      Token.eof ∉ st.toks ∧
      ([Token.id "x", Token.newline, Token.eof] : List Token).getLast? =
        some Token.eof ∧
      ([Token.id "x", Token.newline, Token.eof] : List Token).count Token.eof = 1 :=
  lexer_final_tokens ['x'] [Token.id "x", Token.newline, Token.eof] rfl

end parse
